import Mathlib

/-!
Verification of the table element model of python-docx (`docx/oxml/table.py`).

The source file defines custom element classes for the WordprocessingML
table subtree: `CT_Row`, `CT_Tbl`, `CT_TblGrid`, `CT_TblGridCol`,
`CT_TblLayoutType`, `CT_TblPr`, `CT_TblWidth`, `CT_Tc`, `CT_TcPr` and
`CT_VMerge`.  Elements are nodes of an ordered XML tree with a tag, a
list of attributes and a list of children.  The generic XML engine
(element lookup by tag, attribute get/set, the insert-before-first-
successor placement primitive, the declarative `ZeroOrOne` and
`ZeroOrMore` child descriptors) and the measurement-unit library live in
other modules of the repository; they are modelled here from the spec.
-/

/-- Attribute value: the XML engine stores strings; typed attribute
descriptors convert them to integers or enumeration strings.  Modelled
from the spec: string-valued enumeration attributes and integer-valued
attributes are the two kinds this core uses. -/
inductive AttrVal where
  | str : String → AttrVal
  | int : Int → AttrVal
deriving DecidableEq, Repr

/-- An XML element: a tag, an ordered attribute list and an ordered list
of child elements.  Modelled from the spec: the generic XML tree engine
(out of scope of the source file) represents elements this way. -/
inductive Elem where
  | mk : String → List (String × AttrVal) → List Elem → Elem

mutual

/-- Structural decidable equality on elements. -/
def Elem.decEq : (x y : Elem) → Decidable (x = y)
  | .mk t a c, .mk u b d =>
    if h1 : t = u then
      if h2 : a = b then
        match Elem.decEqList c d with
        | isTrue h3 => isTrue (by rw [h1, h2, h3])
        | isFalse h3 => isFalse (by intro h; injection h; contradiction)
      else isFalse (by intro h; injection h; contradiction)
    else isFalse (by intro h; injection h; contradiction)

/-- Structural decidable equality on child lists. -/
def Elem.decEqList : (xs ys : List Elem) → Decidable (xs = ys)
  | [], [] => isTrue rfl
  | [], _ :: _ => isFalse (fun h => List.noConfusion h)
  | _ :: _, [] => isFalse (fun h => List.noConfusion h)
  | x :: xs, y :: ys =>
    match Elem.decEq x y, Elem.decEqList xs ys with
    | isTrue h1, isTrue h2 => isTrue (by rw [h1, h2])
    | isFalse h1, _ => isFalse (by intro h; injection h; contradiction)
    | isTrue _, isFalse h2 => isFalse (by intro h; injection h; contradiction)

end

instance : DecidableEq Elem := Elem.decEq

/-- Tag of an element. -/
def Elem.tag : Elem → String
  | .mk t _ _ => t

/-- Attribute list of an element. -/
def Elem.attrs : Elem → List (String × AttrVal)
  | .mk _ a _ => a

/-- Children of an element, in document order. -/
def Elem.children : Elem → List Elem
  | .mk _ _ c => c

/-- Read an attribute by name.  Modelled from the spec: attribute
get-by-name of the generic XML engine. -/
def getAttr (e : Elem) (n : String) : Option AttrVal :=
  (e.attrs.find? (fun p => p.1 == n)).map Prod.snd

/-- Replace the value of attribute `n` in an attribute list, or append
it when absent. -/
def setAttrList (l : List (String × AttrVal)) (n : String) (v : AttrVal) :
    List (String × AttrVal) :=
  match l with
  | [] => [(n, v)]
  | (k, w) :: rest =>
      if k = n then (n, v) :: rest else (k, w) :: setAttrList rest n v

/-- Set an attribute on an element.  Modelled from the spec: attribute
set-by-name of the generic XML engine. -/
def setAttr (e : Elem) (n : String) (v : AttrVal) : Elem :=
  .mk e.tag (setAttrList e.attrs n v) e.children

/-- First child with tag `t`, or `none`.  Modelled from the spec: the
get-by-tag primitive backing the `ZeroOrOne` and `OneAndOnlyOne` child
descriptors. -/
def findChild (e : Elem) (t : String) : Option Elem :=
  e.children.find? (fun c => c.tag == t)

/-- All children with tag `t`, in document order.  Modelled from the
spec: the list primitive backing the `ZeroOrMore` child descriptor
(`tr_lst`, `tc_lst`, `gridCol_lst`). -/
def childrenWithTag (e : Elem) (t : String) : List Elem :=
  e.children.filter (fun c => c.tag == t)

/-- Insert `c` immediately before the first existing child whose tag is
in `succs`, after all other children; append when no successor is
present.  Modelled from the spec: "when a child absent today is added,
it must be positioned immediately before the first currently-present
child that is later in the fixed schema sequence, and after all
currently-present children earlier in that sequence". -/
def insertChildAtSlot (cs : List Elem) (succs : List String) (c : Elem) :
    List Elem :=
  match cs with
  | [] => [c]
  | x :: rest =>
      if succs.contains x.tag then c :: x :: rest
      else x :: insertChildAtSlot rest succs c

/-- Find-or-create for a `ZeroOrOne` child: when a child tagged `t` is
present the element is unchanged, otherwise `fresh` is inserted at its
schema slot given by the successor tags `succs`.  Modelled from the
spec: the `get_or_add_` operation generated by the `ZeroOrOne` child
descriptor. -/
def getOrAddChild (e : Elem) (t : String) (succs : List String)
    (fresh : Elem) : Elem :=
  match findChild e t with
  | some _ => e
  | none => .mk e.tag e.attrs (insertChildAtSlot e.children succs fresh)

/-- Update the first child with tag `t` in place. -/
def updateFirstChildWithTag (cs : List Elem) (t : String)
    (f : Elem → Elem) : List Elem :=
  match cs with
  | [] => []
  | x :: rest =>
      if x.tag == t then f x :: rest else x :: updateFirstChildWithTag rest t f

/-- Remove the first child equal to `c`.  Modelled from the spec: child
removal of the generic XML engine (used to delete a row). -/
def removeChild (e : Elem) (c : Elem) : Elem :=
  .mk e.tag e.attrs (e.children.erase c)

/-! ## Measurement units

The source converts with `Emu(value).twips` on write and `Twips(self.w)`
on read; the unit library is outside this core. -/

/-- Modelled from the spec: the measurement-unit library is missing from
the sources; the spec requires conversion between an absolute-length
value and the document's native integer unit (dxa, 1/20 point) and that
writing an absolute width `W` then reading returns `W` unchanged, so the
absolute length is carried as its integer dxa count and the conversion
to the stored dxa magnitude is the identity. -/
def lengthToTwips (v : Int) : Int := v

/-- Modelled from the spec: inverse direction of the unit conversion;
constructs the absolute length from the raw integer dxa magnitude. -/
def twipsToLength (w : Int) : Int := w

/-! ## CT_TblWidth : the `w:tblW` / `w:tcW` width value element -/

/-- `CT_TblWidth.width` getter: `None` unless the `w:type` attribute is
`dxa`, otherwise the length built from the required integer `w:w`
attribute.  Reading a missing required attribute is the engine's
invalid-XML error, carried in `Except`. -/
def CT_TblWidth.width (e : Elem) : Except String (Option Int) :=
  match getAttr e "w:type" with
  | none => .error "required attribute w:type missing"
  | some t =>
    if t = AttrVal.str "dxa" then
      match getAttr e "w:w" with
      | some (.int n) => .ok (some (twipsToLength n))
      | _ => .error "required attribute w:w missing"
    else .ok none

/-- `CT_TblWidth.width` setter: forces `w:type` to `dxa` and stores the
dxa magnitude of the value in `w:w`. -/
def CT_TblWidth.set_width (e : Elem) (value : Int) : Elem :=
  setAttr (setAttr e "w:type" (.str "dxa")) "w:w" (.int (lengthToTwips value))

/-! ## CT_VMerge : the `w:vMerge` element -/

/-- `CT_VMerge.val`: the `w:val` attribute, an `ST_Merge` enumeration
string with default `continue` when the attribute is absent (an
`OptionalAttribute` with default). -/
def CT_VMerge.val (e : Elem) : String :=
  match getAttr e "w:val" with
  | some (.str s) => s
  | _ => "continue"

/-! ## CT_TcPr : the `w:tcPr` cell-properties element -/

/-- The fixed schema sequence of `w:tcPr` child tags (`_tag_seq`). -/
def CT_TcPr.tag_seq : List String :=
  ["w:cnfStyle", "w:tcW", "w:gridSpan", "w:hMerge", "w:vMerge",
   "w:tcBorders", "w:shd", "w:noWrap", "w:tcMar", "w:textDirection",
   "w:tcFitText", "w:vAlign", "w:hideMark", "w:headers", "w:cellIns",
   "w:cellDel", "w:cellMerge", "w:tcPrChange"]

/-- Successor tags of the `w:tcW` child (`_tag_seq[2:]`). -/
def CT_TcPr.tcW_successors : List String := CT_TcPr.tag_seq.drop 2

/-- Successor tags of the `w:gridSpan` child (`_tag_seq[3:]`). -/
def CT_TcPr.gridSpan_successors : List String := CT_TcPr.tag_seq.drop 3

/-- Successor tags of the `w:vMerge` child (`_tag_seq[5:]`). -/
def CT_TcPr.vMerge_successors : List String := CT_TcPr.tag_seq.drop 5

/-- `CT_TcPr.grid_span`: the integer `w:val` of the `w:gridSpan` child,
default 1 when the child is absent. -/
def CT_TcPr.grid_span (e : Elem) : Except String Int :=
  match findChild e "w:gridSpan" with
  | none => .ok 1
  | some gs =>
    match getAttr gs "w:val" with
    | some (.int n) => .ok n
    | _ => .error "required attribute w:val missing"

/-- `CT_TcPr.vMerge_val`: the `w:vMerge` child's state, or `none` when
the child element is absent. -/
def CT_TcPr.vMerge_val (e : Elem) : Option String :=
  (findChild e "w:vMerge").map CT_VMerge.val

/-- `CT_TcPr.width` getter: value of the `w:tcW` child, `none` when the
child is absent. -/
def CT_TcPr.width (e : Elem) : Except String (Option Int) :=
  match findChild e "w:tcW" with
  | none => .ok none
  | some tcW => CT_TblWidth.width tcW

/-- `CT_TcPr.width` setter: get-or-add the `w:tcW` child at its schema
slot, then set its width. -/
def CT_TcPr.set_width (e : Elem) (value : Int) : Elem :=
  let e1 := getOrAddChild e "w:tcW" CT_TcPr.tcW_successors (.mk "w:tcW" [] [])
  .mk e1.tag e1.attrs
    (updateFirstChildWithTag e1.children "w:tcW"
      (fun c => CT_TblWidth.set_width c value))

/-! ## CT_Tc : the `w:tc` table cell element -/

/-- `CT_Tc.new`: a new `w:tc` element containing an empty paragraph as
the required block-level element. -/
def CT_Tc.new : Elem := .mk "w:tc" [] [.mk "w:p" [] []]

/-- `CT_Tc.clear_content`: remove all children, preserving the `w:tcPr`
child when present. -/
def CT_Tc.clear_content (tc : Elem) : Elem :=
  .mk tc.tag tc.attrs
    (match findChild tc "w:tcPr" with
     | some tcPr => [tcPr]
     | none => [])

/-- `CT_Tc.grid_span`: number of grid columns spanned, default 1 when
`w:tcPr` is absent. -/
def CT_Tc.grid_span (tc : Elem) : Except String Int :=
  match findChild tc "w:tcPr" with
  | none => .ok 1
  | some tcPr => CT_TcPr.grid_span tcPr

/-- `CT_Tc.vMerge`: the `./w:tcPr/w:vMerge/@val` state, or `none` when
`w:tcPr` or the `w:vMerge` element is absent. -/
def CT_Tc.vMerge (tc : Elem) : Option String :=
  (findChild tc "w:tcPr").bind CT_TcPr.vMerge_val

/-- `CT_Tc.width` getter: the `./w:tcPr/w:tcW` value, `none` when
`w:tcPr` is absent. -/
def CT_Tc.width (tc : Elem) : Except String (Option Int) :=
  match findChild tc "w:tcPr" with
  | none => .ok none
  | some tcPr => CT_TcPr.width tcPr

/-- `CT_Tc._insert_tcPr`: `w:tcPr` comes first when present, so it is
inserted at position 0 rather than through the successor rule. -/
def CT_Tc.insert_tcPr (tc : Elem) (tcPr : Elem) : Elem :=
  .mk tc.tag tc.attrs (tcPr :: tc.children)

/-- `CT_Tc.width` setter: get-or-add `w:tcPr` (inserted first, per
`_insert_tcPr`), then set its width. -/
def CT_Tc.set_width (tc : Elem) (value : Int) : Elem :=
  let tc1 :=
    match findChild tc "w:tcPr" with
    | some _ => tc
    | none => CT_Tc.insert_tcPr tc (.mk "w:tcPr" [] [])
  .mk tc1.tag tc1.attrs
    (updateFirstChildWithTag tc1.children "w:tcPr"
      (fun c => CT_TcPr.set_width c value))

/-! ## CT_TblPr : the `w:tblPr` table-properties element -/

/-- Successor tags of the `w:tblLayout` child, as declared in the
source's `ZeroOrOne` descriptor. -/
def CT_TblPr.tblLayout_successors : List String :=
  ["w:tblLayout", "w:tblCellMar", "w:tblLook", "w:tblCaption",
   "w:tblDescription", "w:tblPrChange"]

/-- `CT_TblLayoutType.type`: the optional `w:type` attribute of a
`w:tblLayout` element, `none` when absent. -/
def CT_TblLayoutType.type_val (e : Elem) : Option String :=
  match getAttr e "w:type" with
  | some (.str s) => some s
  | _ => none

/-- `CT_TblPr.autofit` getter: `false` when a `w:tblLayout` child is
present with `w:type` equal to `fixed`, `true` otherwise. -/
def CT_TblPr.autofit (e : Elem) : Bool :=
  match findChild e "w:tblLayout" with
  | none => true
  | some tblLayout =>
      if CT_TblLayoutType.type_val tblLayout = some "fixed" then false
      else true

/-- `CT_TblPr.autofit` setter: get-or-add the `w:tblLayout` child at its
schema slot, then set its `w:type` attribute to `autofit` or `fixed`. -/
def CT_TblPr.set_autofit (e : Elem) (value : Bool) : Elem :=
  let v : AttrVal := .str (if value then "autofit" else "fixed")
  let e1 := getOrAddChild e "w:tblLayout" CT_TblPr.tblLayout_successors
    (.mk "w:tblLayout" [] [])
  .mk e1.tag e1.attrs
    (updateFirstChildWithTag e1.children "w:tblLayout"
      (fun c => setAttr c "w:type" v))

/-! ## CT_Tbl : the `w:tbl` element -/

/-- `tr_lst`: the `w:tr` children of a table, in document order. -/
def CT_Tbl.tr_lst (tbl : Elem) : List Elem := childrenWithTag tbl "w:tr"

/-- `tc_lst`: the `w:tc` children of a row, in document order. -/
def CT_Row.tc_lst (tr : Elem) : List Elem := childrenWithTag tr "w:tc"

/-- `CT_Tbl.iter_tcs`: each `w:tc` element of the table, left to right
and top to bottom — each cell of the first row, then each cell of the
second row, and so on.  A Python generator; a fresh run is produced on
every call, modelled as the list of the yielded elements. -/
def CT_Tbl.iter_tcs (tbl : Elem) : List Elem :=
  (CT_Tbl.tr_lst tbl).flatMap CT_Row.tc_lst

/-- `CT_Tbl.new`: parses the `_tbl_xml()` template — a `w:tbl` holding a
`w:tblPr` with a `w:tblW` of type `auto` and magnitude 0, and an empty
`w:tblGrid`. -/
def CT_Tbl.new : Elem :=
  .mk "w:tbl" []
    [.mk "w:tblPr" []
       [.mk "w:tblW" [("w:type", .str "auto"), ("w:w", .int 0)] []],
     .mk "w:tblGrid" [] []]

/-- `CT_Tbl.col_count`: the number of `w:gridCol` children of the
required `w:tblGrid` child; the engine's invalid-XML error when that
child is missing (`OneAndOnlyOne`). -/
def CT_Tbl.col_count (tbl : Elem) : Except String Nat :=
  match findChild tbl "w:tblGrid" with
  | none => .error "required child w:tblGrid missing"
  | some tblGrid => .ok (childrenWithTag tblGrid "w:gridCol").length

/-- Table-level autofit read: `CT_TblPr.autofit` of the required
`w:tblPr` child. -/
def CT_Tbl.autofit (tbl : Elem) : Except String Bool :=
  match findChild tbl "w:tblPr" with
  | none => .error "required child w:tblPr missing"
  | some tblPr => .ok (CT_TblPr.autofit tblPr)

/-! ## CT_Row : the `w:tr` element -/

/-- `CT_Row.tr_idx`: the index of this row within its parent table's
`w:tr` children, computed by positional lookup on each call; `none` when
the row is not among them. -/
def CT_Row.tr_idx (tbl : Elem) (tr : Elem) : Option Nat :=
  (CT_Tbl.tr_lst tbl).indexOf? tr

/-! ## Cell-properties insertion operations (claim C1) -/

/-- One `ZeroOrOne` child-creation call on a `w:tcPr` element: add the
width child, the grid-span child or the vertical-merge marker. -/
inductive TcPrOp where
  | addTcW : TcPrOp
  | addGridSpan : TcPrOp
  | addVMerge : TcPrOp
deriving DecidableEq, Repr, Fintype

/-- Apply one insertion call: get-or-add the named child at the schema
slot given by its declared successor tags. -/
def applyTcPrOp (e : Elem) : TcPrOp → Elem
  | .addTcW => getOrAddChild e "w:tcW" CT_TcPr.tcW_successors (.mk "w:tcW" [] [])
  | .addGridSpan =>
      getOrAddChild e "w:gridSpan" CT_TcPr.gridSpan_successors
        (.mk "w:gridSpan" [] [])
  | .addVMerge =>
      getOrAddChild e "w:vMerge" CT_TcPr.vMerge_successors
        (.mk "w:vMerge" [] [])

/-- A `w:tcPr` element with no children yet. -/
def emptyTcPr : Elem := .mk "w:tcPr" [] []

/-- Apply a sequence of insertion calls in order. -/
def applyTcPrOps (e : Elem) (ops : List TcPrOp) : Elem :=
  ops.foldl applyTcPrOp e

/-! ## Decidability of `Except` results -/

/-- Decidable equality for `Except`, used to evaluate accessor results
on concrete elements. -/
def Except.decEq {ε α : Type} [DecidableEq ε] [DecidableEq α] :
    (x y : Except ε α) → Decidable (x = y)
  | .ok a, .ok b =>
      if h : a = b then isTrue (by rw [h])
      else isFalse (by intro hh; injection hh; contradiction)
  | .ok _, .error _ => isFalse (fun h => Except.noConfusion h)
  | .error _, .ok _ => isFalse (fun h => Except.noConfusion h)
  | .error a, .error b =>
      if h : a = b then isTrue (by rw [h])
      else isFalse (by intro hh; injection hh; contradiction)

instance {ε α : Type} [DecidableEq ε] [DecidableEq α] :
    DecidableEq (Except ε α) := Except.decEq

/-! ## Helper lemmas on the generic tree operations -/

/-- Tag of a constructed element. -/
@[simp] theorem Elem.tag_mk (t : String) (a : List (String × AttrVal))
    (c : List Elem) : (Elem.mk t a c).tag = t := rfl

/-- Attributes of a constructed element. -/
@[simp] theorem Elem.attrs_mk (t : String) (a : List (String × AttrVal))
    (c : List Elem) : (Elem.mk t a c).attrs = a := rfl

/-- Children of a constructed element. -/
@[simp] theorem Elem.children_mk (t : String) (a : List (String × AttrVal))
    (c : List Elem) : (Elem.mk t a c).children = c := rfl

/-- Setting an attribute leaves the tag unchanged. -/
theorem tag_setAttr (e : Elem) (n : String) (v : AttrVal) :
    (setAttr e n v).tag = e.tag := rfl

/-- Setting an attribute leaves the children unchanged. -/
theorem children_setAttr (e : Elem) (n : String) (v : AttrVal) :
    (setAttr e n v).children = e.children := rfl

/-- Looking up an attribute list after setting `n` yields the new value. -/
theorem find_setAttrList_same (l : List (String × AttrVal)) (n : String)
    (v : AttrVal) :
    (setAttrList l n v).find? (fun p => p.1 == n) = some (n, v) := by
  induction l with
  | nil => simp [setAttrList]
  | cons kv rest ih =>
    obtain ⟨k, w⟩ := kv
    by_cases hk : k = n
    · subst hk
      simp [setAttrList]
    · have hkn : (k == n) = false := by simp [hk]
      simp [setAttrList, hk, List.find?, hkn, ih]

/-- Reading the attribute just set yields the new value. -/
theorem getAttr_setAttr_same (e : Elem) (n : String) (v : AttrVal) :
    getAttr (setAttr e n v) n = some v := by
  simp [getAttr, setAttr, find_setAttrList_same]

/-- Looking up a different attribute after setting `n` is unchanged. -/
theorem find_setAttrList_other (l : List (String × AttrVal)) (n m : String)
    (v : AttrVal) (hnm : n ≠ m) :
    (setAttrList l n v).find? (fun p => p.1 == m) =
      l.find? (fun p => p.1 == m) := by
  have hnm' : (n == m) = false := by simp [hnm]
  induction l with
  | nil => simp [setAttrList, List.find?, hnm']
  | cons kv rest ih =>
    obtain ⟨k, w⟩ := kv
    by_cases hk : k = n
    · subst hk
      simp [setAttrList, List.find?, hnm']
    · simp only [setAttrList, if_neg hk]
      by_cases hkm : k = m
      · have hkm' : (k == m) = true := by simp [hkm]
        simp [List.find?, hkm']
      · have hkm' : (k == m) = false := by simp [hkm]
        simp [List.find?, hkm', ih]

/-- Reading an attribute other than the one just set is unchanged. -/
theorem getAttr_setAttr_other (e : Elem) (n m : String) (v : AttrVal)
    (hnm : n ≠ m) :
    getAttr (setAttr e n v) m = getAttr e m := by
  simp [getAttr, setAttr, find_setAttrList_other _ _ _ _ hnm]

/-- A found child carries the tag searched for. -/
theorem findChild_some_tag {e : Elem} {t : String} {p : Elem}
    (h : findChild e t = some p) : p.tag = t := by
  have := List.find?_some h
  simpa using this

/-- `findChild` misses exactly when no child carries the tag. -/
theorem findChild_eq_none_iff (e : Elem) (t : String) :
    findChild e t = none ↔ t ∉ e.children.map Elem.tag := by
  unfold findChild
  rw [List.find?_eq_none]
  constructor
  · intro h hmem
    obtain ⟨c, hc, hct⟩ := List.mem_map.mp hmem
    exact h c hc (by simp [hct])
  · intro h c hc hct
    exact h (List.mem_map.mpr ⟨c, hc, by simpa using hct⟩)

/-! ## Claim C1 : schema order of Cell-Properties child insertions -/

/-- Effect of `insertChildAtSlot` on the child tag sequence. -/
def insertTagAtSlot (ts : List String) (succs : List String) (t : String) :
    List String :=
  match ts with
  | [] => [t]
  | x :: rest =>
      if succs.contains x then t :: x :: rest
      else x :: insertTagAtSlot rest succs t

/-- `insertChildAtSlot` acts on tags as `insertTagAtSlot`. -/
theorem map_tag_insertChildAtSlot (cs : List Elem) (succs : List String)
    (c : Elem) :
    (insertChildAtSlot cs succs c).map Elem.tag =
      insertTagAtSlot (cs.map Elem.tag) succs c.tag := by
  induction cs with
  | nil => simp [insertChildAtSlot, insertTagAtSlot]
  | cons x rest ih =>
    by_cases hx : x.tag ∈ succs
    · simp [insertChildAtSlot, insertTagAtSlot, hx]
    · simp [insertChildAtSlot, insertTagAtSlot, hx, ih]

/-- Effect of one get-or-add call on the child tag sequence. -/
def applyTagOp (ts : List String) : TcPrOp → List String
  | .addTcW =>
      if "w:tcW" ∈ ts then ts
      else insertTagAtSlot ts CT_TcPr.tcW_successors "w:tcW"
  | .addGridSpan =>
      if "w:gridSpan" ∈ ts then ts
      else insertTagAtSlot ts CT_TcPr.gridSpan_successors "w:gridSpan"
  | .addVMerge =>
      if "w:vMerge" ∈ ts then ts
      else insertTagAtSlot ts CT_TcPr.vMerge_successors "w:vMerge"

/-- `getOrAddChild` acts on tags as the contains-guarded tag insertion. -/
theorem map_tag_getOrAddChild (e : Elem) (t : String) (succs : List String)
    (fresh : Elem) (hf : fresh.tag = t) :
    (getOrAddChild e t succs fresh).children.map Elem.tag =
      if t ∈ e.children.map Elem.tag then e.children.map Elem.tag
      else insertTagAtSlot (e.children.map Elem.tag) succs t := by
  unfold getOrAddChild
  cases hfc : findChild e t with
  | some x =>
    have hmem : t ∈ e.children.map Elem.tag := by
      by_contra hn
      rw [← findChild_eq_none_iff] at hn
      rw [hfc] at hn
      exact Option.noConfusion hn
    simp [hmem]
  | none =>
    have hmem : t ∉ e.children.map Elem.tag := (findChild_eq_none_iff e t).mp hfc
    simp [hmem, map_tag_insertChildAtSlot, hf]

/-- `applyTcPrOp` acts on tags as `applyTagOp`. -/
theorem map_tag_applyTcPrOp (e : Elem) (op : TcPrOp) :
    (applyTcPrOp e op).children.map Elem.tag =
      applyTagOp (e.children.map Elem.tag) op := by
  cases op <;>
    simp [applyTcPrOp, applyTagOp, map_tag_getOrAddChild]

/-- The eight child tag sequences reachable by inserting the width,
grid-span and vertical-merge children in any order: exactly the
subsequences of the fixed schema order. -/
def canonicalTcPrTags : List (List String) :=
  [[], ["w:tcW"], ["w:gridSpan"], ["w:vMerge"],
   ["w:tcW", "w:gridSpan"], ["w:tcW", "w:vMerge"],
   ["w:gridSpan", "w:vMerge"], ["w:tcW", "w:gridSpan", "w:vMerge"]]

/-- Each insertion call preserves membership in the canonical tag
sequences. -/
theorem applyTagOp_canonical :
    ∀ ts ∈ canonicalTcPrTags, ∀ op : TcPrOp,
      applyTagOp ts op ∈ canonicalTcPrTags := by decide

/-- Every canonical tag sequence is a subsequence of the fixed schema
order restricted to the three tags. -/
theorem canonical_sublist :
    ∀ ts ∈ canonicalTcPrTags,
      List.Sublist ts ["w:tcW", "w:gridSpan", "w:vMerge"] := by decide

/-- C1: for any sequence of insertions of Cell Properties optional
children (width `w:tcW`, grid span `w:gridSpan`, vertical-merge marker
`w:vMerge`) performed in arbitrary call order on a `w:tcPr` element,
each inserted at its schema slot, the resulting child sequence is in the
fixed schema order: the tag sequence is a subsequence of the fixed tag
sequence, so for example grid span always precedes the vertical-merge
marker. -/
theorem tcPr_insertion_order_invariant (ops : List TcPrOp) :
    List.Sublist ((applyTcPrOps emptyTcPr ops).children.map Elem.tag)
      ["w:tcW", "w:gridSpan", "w:vMerge"] := by
  have key : ∀ (l : List TcPrOp) (e : Elem),
      e.children.map Elem.tag ∈ canonicalTcPrTags →
      (applyTcPrOps e l).children.map Elem.tag ∈ canonicalTcPrTags := by
    intro l
    induction l with
    | nil => intro e h; exact h
    | cons op rest ih =>
      intro e h
      have step : (applyTcPrOp e op).children.map Elem.tag ∈
          canonicalTcPrTags := by
        rw [map_tag_applyTcPrOp]
        exact applyTagOp_canonical _ h op
      exact ih _ step
  have hmem := key ops emptyTcPr (by decide)
  exact canonical_sublist _ hmem

/-! ## Claim C2 : width write/read round trip -/

/-- C2: for every absolute width value `W`, writing `W` through the
width setter of a width value element and then reading width back
returns `W` unchanged, and after the write the element's `w:type`
discriminator is `dxa`. -/
theorem width_roundtrip_dxa (e : Elem) (W : Int) :
    CT_TblWidth.width (CT_TblWidth.set_width e W) = .ok (some W) ∧
    getAttr (CT_TblWidth.set_width e W) "w:type" = some (.str "dxa") := by
  have htype : getAttr (CT_TblWidth.set_width e W) "w:type" =
      some (.str "dxa") := by
    unfold CT_TblWidth.set_width
    rw [getAttr_setAttr_other _ _ _ _ (by decide)]
    exact getAttr_setAttr_same _ _ _
  have hw : getAttr (CT_TblWidth.set_width e W) "w:w" =
      some (.int (lengthToTwips W)) := by
    unfold CT_TblWidth.set_width
    exact getAttr_setAttr_same _ _ _
  refine ⟨?_, htype⟩
  unfold CT_TblWidth.width
  rw [htype, hw]
  simp [lengthToTwips, twipsToLength]

/-! ## Claim C6 : non-dxa width reads as unset, without error -/

/-- C6: for every width value element whose `w:type` discriminator is
`auto`, `nil` or `pct`, reading the absolute length returns unset
(`none`) and does not raise an error; only type `dxa` yields an absolute
length. -/
theorem width_non_dxa_unset (e : Elem) (t : String)
    (h1 : getAttr e "w:type" = some (.str t))
    (h2 : t = "auto" ∨ t = "nil" ∨ t = "pct") :
    CT_TblWidth.width e = .ok none := by
  have hne : AttrVal.str t ≠ AttrVal.str "dxa" := by
    rcases h2 with h | h | h <;> subst h <;> decide
  unfold CT_TblWidth.width
  rw [h1]
  simp [hne]

/-- A `w:tcW` width value element of type `pct` with magnitude 5000. -/
def pctWidthElem : Elem :=
  .mk "w:tcW" [("w:w", .int 5000), ("w:type", .str "pct")] []

/-- Witness for C6: the `pct`/5000 width value element reads as unset. -/
theorem width_non_dxa_unset_witness :
    CT_TblWidth.width pctWidthElem = .ok none :=
  width_non_dxa_unset pctWidthElem "pct" (by decide) (by decide)

/-! ## Claim C3 : the new-table constructor -/

/-- C3: every table built by `CT_Tbl.new` has a `w:tblPr` child whose
`w:tblW` width child has type `auto` and magnitude 0, an empty
`w:tblGrid`, zero rows, `col_count` 0, and reads as autofit. -/
theorem tbl_new_minimal :
    ((findChild CT_Tbl.new "w:tblPr").bind
        (fun p => findChild p "w:tblW")).bind
        (fun w => getAttr w "w:type") = some (.str "auto") ∧
    ((findChild CT_Tbl.new "w:tblPr").bind
        (fun p => findChild p "w:tblW")).bind
        (fun w => getAttr w "w:w") = some (.int 0) ∧
    findChild CT_Tbl.new "w:tblGrid" = some (.mk "w:tblGrid" [] []) ∧
    CT_Tbl.tr_lst CT_Tbl.new = [] ∧
    CT_Tbl.col_count CT_Tbl.new = .ok 0 ∧
    CT_Tbl.autofit CT_Tbl.new = .ok true := by decide

/-! ## Claim C9 : the new-cell constructor -/

/-- C9: every cell built by `CT_Tc.new` contains exactly one content
child — an empty paragraph — and no `w:tcPr` child; `grid_span` returns
1, the vertical-merge state reads as unset and the width reads as unset,
and none of these reads fails. -/
theorem tc_new_defaults :
    CT_Tc.new.children = [.mk "w:p" [] []] ∧
    findChild CT_Tc.new "w:tcPr" = none ∧
    CT_Tc.grid_span CT_Tc.new = .ok 1 ∧
    CT_Tc.vMerge CT_Tc.new = none ∧
    CT_Tc.width CT_Tc.new = .ok none := by decide

/-! ## Claim C5 : two defaulting layers of the vertical-merge read -/

/-- C5: the vertical-merge read has two independent defaulting layers —
a `w:vMerge` marker present with no `w:val` attribute reads as
`continue`, while absence of the marker, or of the whole `w:tcPr` block,
reads as unset (`none`), which is distinct from `continue`. -/
theorem vmerge_two_layer_default (tc tcPr vm : Elem) :
    (findChild tc "w:tcPr" = some tcPr → findChild tcPr "w:vMerge" = some vm →
      getAttr vm "w:val" = none → CT_Tc.vMerge tc = some "continue") ∧
    (findChild tc "w:tcPr" = none → CT_Tc.vMerge tc = none) ∧
    (findChild tc "w:tcPr" = some tcPr → findChild tcPr "w:vMerge" = none →
      CT_Tc.vMerge tc = none) ∧
    (none : Option String) ≠ some "continue" := by
  refine ⟨?_, ?_, ?_, by decide⟩
  · intro h1 h2 h3
    simp [CT_Tc.vMerge, CT_TcPr.vMerge_val, CT_VMerge.val, h1, h2, h3]
  · intro h1
    simp [CT_Tc.vMerge, h1]
  · intro h1 h2
    simp [CT_Tc.vMerge, CT_TcPr.vMerge_val, h1, h2]

/-- Cell whose `w:tcPr` holds a bare `w:vMerge` marker (no `w:val`). -/
def cellBareVMerge : Elem :=
  .mk "w:tc" [] [.mk "w:tcPr" [] [.mk "w:vMerge" [] []], .mk "w:p" [] []]

/-- Cell whose `w:tcPr` is present but holds no `w:vMerge` marker. -/
def cellNoVMerge : Elem :=
  .mk "w:tc" [] [.mk "w:tcPr" [] [], .mk "w:p" [] []]

/-- Witness for C5: the bare marker reads `continue`; a cell without the
marker, or without the whole `w:tcPr` block, reads unset. -/
theorem vmerge_two_layer_default_witness :
    CT_Tc.vMerge cellBareVMerge = some "continue" ∧
    CT_Tc.vMerge CT_Tc.new = none ∧
    CT_Tc.vMerge cellNoVMerge = none :=
  ⟨(vmerge_two_layer_default cellBareVMerge (.mk "w:tcPr" []
      [.mk "w:vMerge" [] []]) (.mk "w:vMerge" [] [])).1
        (by decide) (by decide) (by decide),
   (vmerge_two_layer_default CT_Tc.new emptyTcPr emptyTcPr).2.1 (by decide),
   (vmerge_two_layer_default cellNoVMerge (.mk "w:tcPr" [] [])
      emptyTcPr).2.2.1 (by decide) (by decide)⟩

/-! ## Claim C7 : clear_content preserves exactly the properties child -/

/-- C7: `clear_content` removes all children except the `w:tcPr` child,
which is preserved unchanged when present and remains the (only, hence
first) child; afterwards the cell has no content element — every
remaining child is a `w:tcPr`. -/
theorem clear_content_keeps_only_tcPr (tc : Elem) :
    (∀ p, findChild tc "w:tcPr" = some p →
      (CT_Tc.clear_content tc).children = [p]) ∧
    (findChild tc "w:tcPr" = none →
      (CT_Tc.clear_content tc).children = []) ∧
    (∀ c ∈ (CT_Tc.clear_content tc).children, c.tag = "w:tcPr") := by
  refine ⟨?_, ?_, ?_⟩
  · intro p hp
    simp [CT_Tc.clear_content, hp]
  · intro hp
    simp [CT_Tc.clear_content, hp]
  · intro c hc
    unfold CT_Tc.clear_content at hc
    cases hp : findChild tc "w:tcPr" with
    | some p =>
      rw [hp] at hc
      simp at hc
      rw [hc]
      exact findChild_some_tag hp
    | none =>
      rw [hp] at hc
      simp at hc

/-- A cell holding a properties child and two paragraphs. -/
def cellWithPrAndContent : Elem :=
  .mk "w:tc" []
    [.mk "w:tcPr" [] [.mk "w:gridSpan" [("w:val", .int 2)] []],
     .mk "w:p" [] [], .mk "w:p" [] []]

/-- Witness for C7: clearing the demo cell keeps exactly its `w:tcPr`
child, unchanged. -/
theorem clear_content_keeps_only_tcPr_witness :
    (CT_Tc.clear_content cellWithPrAndContent).children =
      [.mk "w:tcPr" [] [.mk "w:gridSpan" [("w:val", .int 2)] []]] :=
  (clear_content_keeps_only_tcPr cellWithPrAndContent).1
    (.mk "w:tcPr" [] [.mk "w:gridSpan" [("w:val", .int 2)] []]) (by decide)

/-! ## Claim C4 : row-major cell iteration -/

/-- Length of the cell iteration when every row has `C` cells. -/
theorem flatMap_tc_length (rows : List Elem) (C : Nat)
    (h : ∀ r ∈ rows, (CT_Row.tc_lst r).length = C) :
    (rows.flatMap CT_Row.tc_lst).length = rows.length * C := by
  induction rows with
  | nil => simp
  | cons r rest ih =>
    have hr : (CT_Row.tc_lst r).length = C := h r (by simp)
    have hrest : ∀ x ∈ rest, (CT_Row.tc_lst x).length = C := by
      intro x hx
      exact h x (by simp [hx])
    simp [List.flatMap_cons, hr, ih hrest, Nat.succ_mul, Nat.add_comm]

/-- Position `i * C + j` of the cell iteration is cell `j` of row `i`
when every row has `C` cells. -/
theorem flatMap_tc_get (rows : List Elem) (C : Nat)
    (h : ∀ r ∈ rows, (CT_Row.tc_lst r).length = C) :
    ∀ i j, i < rows.length → j < C →
      (rows.flatMap CT_Row.tc_lst)[i * C + j]? =
        rows[i]?.bind (fun r => (CT_Row.tc_lst r)[j]?) := by
  induction rows with
  | nil => intro i j hi _; exact absurd hi (by simp)
  | cons r rest ih =>
    intro i j hi hj
    have hr : (CT_Row.tc_lst r).length = C := h r (by simp)
    have hrest : ∀ x ∈ rest, (CT_Row.tc_lst x).length = C := by
      intro x hx
      exact h x (by simp [hx])
    cases i with
    | zero =>
      have hlt : (0 : Nat) * C + j < (CT_Row.tc_lst r).length := by
        simpa [hr] using hj
      rw [List.flatMap_cons, List.getElem?_append, if_pos hlt]
      simp
    | succ i0 =>
      have hge : (CT_Row.tc_lst r).length ≤ (i0 + 1) * C + j := by
        rw [hr, Nat.succ_mul]
        omega
      have hidx : (i0 + 1) * C + j - (CT_Row.tc_lst r).length =
          i0 * C + j := by
        rw [hr, Nat.succ_mul]
        omega
      have hi0 : i0 < rest.length := by
        simpa [Nat.succ_lt_succ_iff] using hi
      rw [List.flatMap_cons, List.getElem?_append,
        if_neg (Nat.not_lt.mpr hge), hidx]
      have hcons : (r :: rest)[i0 + 1]? = rest[i0]? := by simp
      rw [hcons]
      exact ih hrest i0 j hi0 hj

/-- C4: for every table whose `R` rows each contain `C` cells,
`iter_tcs` yields exactly `R * C` cells in row-major order — position
`i * C + j` is cell `j` of row `i` — every physical cell element once,
without deduplicating merged cells; and it is restartable, a second run
yielding the same sequence. -/
theorem iter_tcs_row_major (tbl : Elem) (R C : Nat)
    (hR : (CT_Tbl.tr_lst tbl).length = R)
    (hC : ∀ r ∈ CT_Tbl.tr_lst tbl, (CT_Row.tc_lst r).length = C) :
    (CT_Tbl.iter_tcs tbl).length = R * C ∧
    (∀ i j, i < R → j < C →
      (CT_Tbl.iter_tcs tbl)[i * C + j]? =
        (CT_Tbl.tr_lst tbl)[i]?.bind (fun r => (CT_Row.tc_lst r)[j]?)) ∧
    CT_Tbl.iter_tcs tbl = CT_Tbl.iter_tcs tbl := by
  refine ⟨?_, ?_, rfl⟩
  · rw [CT_Tbl.iter_tcs, flatMap_tc_length _ _ hC, hR]
  · intro i j hi hj
    rw [CT_Tbl.iter_tcs]
    exact flatMap_tc_get _ _ hC i j (by rw [hR]; exact hi) hj

/-- A row holding three cells, distinguished by a marker attribute. -/
def demoRow (k : Int) : Elem :=
  .mk "w:tr" [("marker", .int k)]
    [CT_Tc.new, CT_Tc.new, CT_Tc.new]

/-- A table with two rows of three cells each. -/
def demoTbl : Elem :=
  .mk "w:tbl" []
    [.mk "w:tblPr" [] [], .mk "w:tblGrid" [] [], demoRow 0, demoRow 1]

/-- Witness for C4: on the 2×3 demo table the iteration yields 6 cells
and position `1 * 3 + 2` is cell 2 of row 1. -/
theorem iter_tcs_row_major_witness :
    (CT_Tbl.iter_tcs demoTbl).length = 2 * 3 ∧
    (CT_Tbl.iter_tcs demoTbl)[1 * 3 + 2]? =
      (CT_Tbl.tr_lst demoTbl)[1]?.bind (fun r => (CT_Row.tc_lst r)[2]?) :=
  ⟨(iter_tcs_row_major demoTbl 2 3 (by decide) (by decide)).1,
   (iter_tcs_row_major demoTbl 2 3 (by decide) (by decide)).2.1 1 2
     (by decide) (by decide)⟩

/-! ## Claim C8 : row index by positional lookup -/

/-- Positional lookup of an element among a sibling list: the rank of
its first occurrence.  Modelled from the spec: `row_index()` is
implemented by positional lookup in the parent's row sequence, not a
stored counter. -/
def posIndex (l : List Elem) (x : Elem) : Option Nat :=
  match l with
  | [] => none
  | y :: rest => if y = x then some 0 else (posIndex rest x).map (· + 1)

/-- `CT_Row.tr_idx` as positional lookup (`tr_lst.index(self)`). -/
theorem tr_idx_eq_posIndex (tbl tr : Elem) :
    CT_Row.tr_idx tbl tr = posIndex (CT_Tbl.tr_lst tbl) tr := by
  rw [CT_Row.tr_idx]
  generalize CT_Tbl.tr_lst tbl = l
  induction l with
  | nil => simp [posIndex, List.indexOf?]
  | cons y rest ih =>
    by_cases hy : y = tr
    · simp [posIndex, hy, List.indexOf?, List.findIdx?]
    · have hy' : (y == tr) = false := by simp [hy]
      have ih' : List.findIdx? (fun x => x == tr) rest = posIndex rest tr := by
        simpa [List.indexOf?] using ih
      simp [posIndex, hy, List.indexOf?, List.findIdx?_cons, hy', ih']

/-- C8: `tr_idx` returns the row's rank among the table's current
`w:tr` children, recomputed by positional lookup on each call: for a
table with rows `[r0, r1, r2]`, row `r1` has index 1, and after deleting
`r0` from the table, row `r1` has index 0. -/
theorem tr_idx_positional (tbl r0 r1 r2 : Elem)
    (h : CT_Tbl.tr_lst tbl = [r0, r1, r2]) (hne : r1 ≠ r0) :
    CT_Row.tr_idx tbl r1 = some 1 ∧
    CT_Row.tr_idx (removeChild tbl r0) r1 = some 0 := by
  constructor
  · rw [tr_idx_eq_posIndex, h]
    simp [posIndex, hne.symm]
  · have hlst : CT_Tbl.tr_lst (removeChild tbl r0) = [r1, r2] := by
      show childrenWithTag (removeChild tbl r0) "w:tr" = [r1, r2]
      unfold childrenWithTag removeChild
      rw [Elem.children_mk, ← List.erase_filter]
      have : List.filter (fun c => c.tag == "w:tr") tbl.children =
          [r0, r1, r2] := h
      rw [this, List.erase_cons_head]
    rw [tr_idx_eq_posIndex, hlst]
    simp [posIndex]

/-- A distinct demo row: tagged `w:tr`, marked by an attribute. -/
def demoTrRow (k : Int) : Elem := .mk "w:tr" [("marker", .int k)] []

/-- A table holding properties, grid and three distinct rows. -/
def demoTbl3 : Elem :=
  .mk "w:tbl" []
    [.mk "w:tblPr" [] [], .mk "w:tblGrid" [] [],
     demoTrRow 0, demoTrRow 1, demoTrRow 2]

/-- Witness for C8: in the three-row demo table the middle row has index
1, and index 0 once the first row is deleted. -/
theorem tr_idx_positional_witness :
    CT_Row.tr_idx demoTbl3 (demoTrRow 1) = some 1 ∧
    CT_Row.tr_idx (removeChild demoTbl3 (demoTrRow 0)) (demoTrRow 1) =
      some 0 :=
  tr_idx_positional demoTbl3 (demoTrRow 0) (demoTrRow 1) (demoTrRow 2)
    (by decide) (by decide)

/-! ## Claim C10 : autofit set/get round trip -/

/-- Finding by tag after updating the first child with that tag yields
the updated child, when the update preserves the tag. -/
theorem find_updateFirstChildWithTag (cs : List Elem) (t : String)
    (f : Elem → Elem) (hf : ∀ x, (f x).tag = x.tag) :
    (updateFirstChildWithTag cs t f).find? (fun c => c.tag == t) =
      (cs.find? (fun c => c.tag == t)).map f := by
  induction cs with
  | nil => simp [updateFirstChildWithTag]
  | cons x rest ih =>
    by_cases hx : x.tag = t
    · have hx' : (x.tag == t) = true := by simp [hx]
      have hfx : ((f x).tag == t) = true := by simp [hf x, hx]
      simp [updateFirstChildWithTag, hx', List.find?, hfx]
    · have hx' : (x.tag == t) = false := by simp [hx]
      simp [updateFirstChildWithTag, hx', List.find?, ih]

/-- Finding by tag after inserting a child with that tag at its schema
slot yields the inserted child, when no child carried the tag before. -/
theorem find_insertChildAtSlot_new (cs : List Elem) (succs : List String)
    (c : Elem) (t : String) (hc : c.tag = t)
    (habs : ∀ x ∈ cs, x.tag ≠ t) :
    (insertChildAtSlot cs succs c).find? (fun x => x.tag == t) = some c := by
  induction cs with
  | nil => simp [insertChildAtSlot, List.find?, hc]
  | cons x rest ih =>
    have hx : x.tag ≠ t := habs x (by simp)
    have hx' : (x.tag == t) = false := by simp [hx]
    by_cases hmem : x.tag ∈ succs
    · simp [insertChildAtSlot, hmem, List.find?, hc, hx']
    · have hrest : ∀ y ∈ rest, y.tag ≠ t := by
        intro y hy
        exact habs y (by simp [hy])
      simp [insertChildAtSlot, hmem, List.find?, hx', ih hrest]

/-- When the child is already present, get-or-add returns the element
unchanged. -/
theorem getOrAddChild_of_found {e : Elem} {t : String}
    {succs : List String} {fresh : Elem} {x : Elem}
    (h : findChild e t = some x) :
    getOrAddChild e t succs fresh = e := by
  unfold getOrAddChild
  rw [h]

/-- When the child is missing, get-or-add inserts it at its schema
slot. -/
theorem children_getOrAddChild_of_missing {e : Elem} {t : String}
    {succs : List String} {fresh : Elem}
    (h : findChild e t = none) :
    (getOrAddChild e t succs fresh).children =
      insertChildAtSlot e.children succs fresh := by
  unfold getOrAddChild
  rw [h]
  rfl

/-- Children produced by the autofit setter: the first `w:tblLayout`
child of the get-or-add result, updated with the written literal. -/
theorem children_set_autofit (e : Elem) (b : Bool) :
    (CT_TblPr.set_autofit e b).children =
      updateFirstChildWithTag
        (getOrAddChild e "w:tblLayout" CT_TblPr.tblLayout_successors
          (.mk "w:tblLayout" [] [])).children
        "w:tblLayout"
        (fun c => setAttr c "w:type"
          (.str (if b then "autofit" else "fixed"))) := rfl

/-- After the autofit setter runs, the first `w:tblLayout` child exists
and its `w:type` attribute holds the written literal. -/
theorem set_autofit_layout_attr (e : Elem) (b : Bool) :
    (findChild (CT_TblPr.set_autofit e b) "w:tblLayout").bind
      (fun c => getAttr c "w:type") =
      some (.str (if b then "autofit" else "fixed")) := by
  have hch := children_set_autofit e b
  show ((CT_TblPr.set_autofit e b).children.find?
      (fun c => c.tag == "w:tblLayout")).bind (fun c => getAttr c "w:type") =
    some (.str (if b then "autofit" else "fixed"))
  have hfpres : ∀ x : Elem,
      (setAttr x "w:type"
        (AttrVal.str (if b = true then "autofit" else "fixed"))).tag =
      x.tag := fun _ => rfl
  cases hfc : findChild e "w:tblLayout" with
  | some x =>
    rw [getOrAddChild_of_found hfc] at hch
    rw [hch, find_updateFirstChildWithTag _ _ _ hfpres]
    rw [show e.children.find? (fun c => c.tag == "w:tblLayout") = some x
      from hfc]
    simp [getAttr_setAttr_same]
  | none =>
    rw [children_getOrAddChild_of_missing hfc] at hch
    have habs : ∀ y ∈ e.children, y.tag ≠ "w:tblLayout" := by
      intro y hy hyt
      exact (findChild_eq_none_iff e "w:tblLayout").mp hfc
        (List.mem_map.mpr ⟨y, hy, hyt⟩)
    rw [hch, find_updateFirstChildWithTag _ _ _ hfpres]
    rw [find_insertChildAtSlot_new e.children CT_TblPr.tblLayout_successors
      (.mk "w:tblLayout" [] []) "w:tblLayout" rfl habs]
    simp [getAttr_setAttr_same]

/-- The autofit getter returns `false` exactly when a `w:tblLayout`
child is present whose `w:type` attribute is the literal `fixed`. -/
theorem autofit_false_iff (e : Elem) :
    CT_TblPr.autofit e = false ↔
      (findChild e "w:tblLayout").bind (fun c => getAttr c "w:type") =
        some (.str "fixed") := by
  unfold CT_TblPr.autofit
  cases hfc : findChild e "w:tblLayout" with
  | none => simp
  | some layout =>
    simp only [Option.some_bind]
    unfold CT_TblLayoutType.type_val
    cases hga : getAttr layout "w:type" with
    | none => simp
    | some v =>
      cases v with
      | str s =>
        by_cases hs : s = "fixed" <;> simp [hs]
      | int n => simp

/-- C10: after setting the table's autofit property to `b`, reading
autofit returns `b`; the getter returns `false` exactly when a
`w:tblLayout` child is present with `w:type` equal to the literal
`fixed` and `true` in every other case; and the setter stores the
literal `autofit` — not `auto` — for `true`, and `fixed` for `false`. -/
theorem autofit_set_get (e : Elem) (b : Bool) :
    CT_TblPr.autofit (CT_TblPr.set_autofit e b) = b ∧
    (findChild (CT_TblPr.set_autofit e b) "w:tblLayout").bind
      (fun c => getAttr c "w:type") =
      some (.str (if b then "autofit" else "fixed")) ∧
    (CT_TblPr.autofit e = false ↔
      (findChild e "w:tblLayout").bind (fun c => getAttr c "w:type") =
        some (.str "fixed")) := by
  refine ⟨?_, set_autofit_layout_attr e b, autofit_false_iff e⟩
  have h := set_autofit_layout_attr e b
  cases b with
  | false =>
    exact (autofit_false_iff _).mpr (by simpa using h)
  | true =>
    have hne : (findChild (CT_TblPr.set_autofit e true) "w:tblLayout").bind
        (fun c => getAttr c "w:type") ≠ some (.str "fixed") := by
      rw [h]
      simp
    cases hx : CT_TblPr.autofit (CT_TblPr.set_autofit e true) with
    | false => exact absurd ((autofit_false_iff _).mp hx) hne
    | true => rfl
